import Mathlib

/-!
Shallow embedding of the version-resolution and remote-synchronization engine
of the external_updater tool (`updater_utils.py`, `git_utils.py`,
`git_updater.py`), together with proofs about the claims of its specification.

Python strings are modelled as Lean `String` (lists of characters); the
Python regular expressions in the source are small and concrete, so each is
translated directly into an executable matcher with the documented semantics
of Python's `re` module (in particular, `.` does not match a newline and `$`
also matches just before a newline that ends the string, and `\d` is modelled
as the ASCII digits). Subprocess results are modelled as explicit inputs:
success carries the captured stdout, failure carries the exit code and
stderr.
-/

set_option autoImplicit false

namespace ExternalUpdater

/-! ## Version parsing (`updater_utils.py`)

The source compiles
`VERSION_PATTERN = ^(?P<prefix>[^\d]*)(?P<version>\d+([.\-_]\d+)*)(?P<suffix>.*)$`
and splits the version run on `[.\-_]`, converting every segment with `int`.
-/

/-- A successful match of `VERSION_RE`: the three named groups, with the
version run already split and converted to integers as in `_parse_version`. -/
structure ParsedVersion where
  segs : List Nat
  pre : String
  suf : String
  deriving DecidableEq

/-- The character class `[.\-_]` of `VERSION_SPLITTER_PATTERN`. -/
def isVersionSep (c : Char) : Bool := c == '.' || c == '-' || c == '_'

/-- The greedy `\d+([.\-_]\d+)*` version group, entered at its first digit:
`n` accumulates the decimal value of the current segment (Python `int` on the
digit run). A maximal digit run extends the current segment; a separator
followed by a digit starts the next segment; anything else ends the group and
is left over for the `(?P<suffix>.*)$` group. Returns the segment values and
the leftover characters. -/
def segLoop : List Char → Nat → (List Nat × List Char)
  | [], n => ([n], [])
  | c :: cs, n =>
    if c.isDigit then segLoop cs (n * 10 + (c.toNat - '0'.toNat))
    else if isVersionSep c then
      match cs with
      | c2 :: _ =>
        if c2.isDigit then
          let r := segLoop cs 0
          (n :: r.1, r.2)
        else ([n], c :: cs)
      | [] => ([n], [c])
    else ([n], c :: cs)

/-- The `(?P<suffix>.*)$` tail of `VERSION_PATTERN` under Python `re`
semantics: `.` never matches a newline and `$` matches at the end of the
string or just before a newline that ends the string. Hence the remainder is
accepted exactly when every newline in it is its final character, and a
trailing newline is not captured by the group. -/
def pyDollarSplit (cs : List Char) : Option (List Char) :=
  if '\n' ∈ cs.dropLast then none
  else if cs.getLast? = some '\n' then some cs.dropLast
  else some cs

/-- The function `_parse_version` of `updater_utils.py`: `none` models the
`ValueError('Invalid version.')` raised when `VERSION_RE` does not match. -/
def _parse_version (s : String) : Option ParsedVersion :=
  let cs := s.data
  match cs.dropWhile (fun c => !c.isDigit) with
  | [] => none
  | rest@(_ :: _) =>
    let r := segLoop rest 0
    match pyDollarSplit r.2 with
    | none => none
    | some sufCs =>
      some ⟨r.1, ⟨cs.takeWhile (fun c => !c.isDigit)⟩, ⟨sufCs⟩⟩

/-- The sort key produced by `_match_and_get_version`: `none` models the `[]`
returned for an unparsable candidate, `some (right_format, right_length,
segments)` the list `[right_format, right_length, new_ver[0]]`. -/
abbrev VKey := Option (Bool × Bool × List Nat)

/-- The function `_match_and_get_version` of `updater_utils.py`. -/
def _match_and_get_version (oldVer : ParsedVersion) (version : String) : VKey :=
  match _parse_version version with
  | none => none
  | some newVer =>
    some (newVer.pre == oldVer.pre && newVer.suf == oldVer.suf,
      newVer.segs.length == oldVer.segs.length, newVer.segs)

/-- Python `<` on lists of non-negative integers (lexicographic, a strict
prefix being smaller). -/
def natListLt : List Nat → List Nat → Bool
  | _, [] => false
  | [], _ :: _ => true
  | a :: as, b :: bs => a < b || (a == b && natListLt as bs)

/-- A key as the Python list it stands for. Python booleans are the integers
0 and 1 (`False < True`), so `[right_format, right_length] + segments` is a
list of non-negative integers and Python's list comparison on two keys is
exactly `natListLt` of their encodings (the `[]` key encodes to `[]`, which
is smaller than every non-empty list). -/
def vkeyEnc : VKey → List Nat
  | none => []
  | some (f, l, s) => (cond f 1 0) :: (cond l 1 0) :: s

/-- Python `<` on the keys returned by `_match_and_get_version`. -/
def vkeyLt (a b : VKey) : Bool := natListLt (vkeyEnc a) (vkeyEnc b)

/-- Python `max(xs, key=key, default=...)` restricted to these keys: `none`
models the default taken on an empty list; otherwise the first element with
a maximal key is returned (`max` only replaces its current best when a
strictly greater key appears). -/
def pymaxBy {α : Type} (key : α → VKey) : List α → Option α
  | [] => none
  | x :: xs =>
    some (xs.foldl (fun best y => if vkeyLt (key best) (key y) then y else best) x)

instance {ε α : Type} [DecidableEq ε] [DecidableEq α] : DecidableEq (Except ε α) := fun a b =>
  match a, b with
  | .ok x, .ok y =>
    if h : x = y then .isTrue (by rw [h])
    else .isFalse (fun hh => h (Except.ok.inj hh))
  | .error x, .error y =>
    if h : x = y then .isTrue (by rw [h])
    else .isFalse (fun hh => h (Except.error.inj hh))
  | .ok _, .error _ => .isFalse (fun hh => Except.noConfusion hh)
  | .error _, .ok _ => .isFalse (fun hh => Except.noConfusion hh)

/-- The errors `get_latest_version` can raise. -/
inductive VersionError
  | invalidVersion
  | noMatchingVersion
  deriving DecidableEq

/-- The function `get_latest_version` of `updater_utils.py`: parse the current version
(raising `Invalid version.` on failure), take the key-maximal candidate, and
raise `No matching version.` when the result is falsy (empty list or empty
string). -/
def get_latest_version (currentVersion : String) (versionList : List String) :
    Except VersionError String :=
  match _parse_version currentVersion with
  | none => .error .invalidVersion
  | some parsedCurrentVer =>
    match pymaxBy (_match_and_get_version parsedCurrentVer) versionList with
    | none => .error .noMatchingVersion
    | some latest =>
      if latest = "" then .error .noMatchingVersion else .ok latest

/-! ## Git helpers (`git_utils.py`)

Subprocess invocations are modelled by their observable results: an
environment record supplies, for each relevant git command, the stdout it
would print or the failure it would signal.
-/

/-- Whether `needle` is an initial run of `hay`. -/
def listBeginsWith : List Char → List Char → Bool
  | [], _ => true
  | _ :: _, [] => false
  | a :: as, b :: bs => a == b && listBeginsWith as bs

/-- Whether `needle` occurs contiguously somewhere in `hay`. -/
def listContainsSeq (needle : List Char) : List Char → Bool
  | [] => listBeginsWith needle []
  | c :: cs => listBeginsWith needle (c :: cs) || listContainsSeq needle cs

/-- Python's `in` for strings: `strContains hay needle` is `needle in hay`. -/
def strContains (hay needle : String) : Bool := listContainsSeq needle.data hay.data

/-- Python `str.split()` with no argument: split on whitespace runs and drop
empty fields; `acc` holds the reversed characters of the token being read. -/
def pySplitWsAux : List Char → List Char → List String
  | [], acc => if acc = [] then [] else [⟨acc.reverse⟩]
  | c :: cs, acc =>
    if c.isWhitespace then
      if acc = [] then pySplitWsAux cs [] else ⟨acc.reverse⟩ :: pySplitWsAux cs []
    else pySplitWsAux cs (c :: acc)

/-- Python `str.split()` with no argument. -/
def pySplitWs (s : String) : List String := pySplitWsAux s.data []

/-- Python `str.strip()` (over the ASCII whitespace characters). -/
def pyStrip (s : String) : String :=
  ⟨((s.data.dropWhile Char.isWhitespace).reverse.dropWhile Char.isWhitespace).reverse⟩

/-- A failed subprocess, as raised by `subprocess.run(..., check=True)`. -/
structure CalledProcessError where
  returncode : Int
  stderr : String
  deriving DecidableEq

/-- The character class `[a-f0-9]` of `COMMIT_PATTERN`. -/
def isLowerHexDigit (c : Char) : Bool := ('a' ≤ c && c ≤ 'f') || c.isDigit

/-- The function `is_commit` of `git_utils.py`: `bool(COMMIT_RE.match(commit))` with
`COMMIT_PATTERN = r'^[a-f0-9]{40}$'`. Under Python `re` semantics `$` matches
at the end of the string or just before a newline that ends the string, so
the match succeeds on exactly forty lowercase hex digits optionally followed
by one trailing newline. -/
def is_commit (commit : String) : Bool :=
  let cs := commit.data
  decide (40 ≤ cs.length) && (cs.take 40).all isLowerHexDigit &&
    (cs.drop 40 == [] || cs.drop 40 == ['\n'])

/-- The function `get_most_recent_tag` of `git_utils.py`, as a function of the outcome of
its single `git describe` invocation: on success the stripped stdout is the
tag; on failure the two "no tag" messages are converted to an empty result
and any other failure is re-raised. -/
def get_most_recent_tag (describeResult : Except CalledProcessError String) :
    Except CalledProcessError (Option String) :=
  match describeResult with
  | .ok out => .ok (some (pyStrip out))
  | .error ex =>
    if strContains ex.stderr "fatal: No names found" then .ok none
    else if strContains ex.stderr "fatal: No tags can describe" then .ok none
    else .error ex

/-- A spawned subprocess command, as its argument list. -/
abbrev Cmd := List String

/-- Outcomes of the two git commands `merge` may spawn: the result of
`git merge <branch> --no-commit` and the stdout of
`git ls-files --unmerged`. -/
structure MergeEnv where
  mergeResult : Except CalledProcessError Unit
  unmergedOutput : String

/-- The function `merge_conflict` of `git_utils.py`: `bool` of the stdout of
`git ls-files --unmerged`. -/
def merge_conflict (env : MergeEnv) : Bool := !(env.unmergedOutput == "")

/-- The function `merge` of `git_utils.py`. Besides the result, the list of commands the
call spawns is returned, so that "never auto-commits" is visible in the
model: on success only the merge command runs; on failure `merge_conflict`
additionally runs `git ls-files --unmerged`, and the original error is
re-raised only when that output is empty. -/
def merge (env : MergeEnv) (branch : String) :
    Except CalledProcessError Unit × List Cmd :=
  let mergeCmd : Cmd := ["git", "merge", branch, "--no-commit"]
  let lsCmd : Cmd := ["git", "ls-files", "--unmerged"]
  match env.mergeResult with
  | .ok () => (.ok (), [mergeCmd])
  | .error err =>
    if merge_conflict env then (.ok (), [mergeCmd, lsCmd])
    else (.error err, [mergeCmd, lsCmd])

/-- The errors the engine can raise, by source. -/
inductive GitError
  /-- A `subprocess.CalledProcessError` propagated from a git command. -/
  | calledProcessError
  /-- The `RuntimeError` of `setup_remote` when no remote looks like the
  android remote, and of `detect_default_branch` when no "HEAD branch" line
  is found. -/
  | remoteDiscoveryError
  /-- The `RuntimeError` of `GitUpdater.check` when the project tracks tags
  but no matching upstream tag exists. -/
  | noTagsUpstream
  deriving DecidableEq

/-- The observable git world one `GitUpdater` run sees: the configured
remotes (name, url) as listed by `git remote -v`, the output lines of
`git ls-remote --tags update_origin`, the output lines of
`git remote show update_origin`, the stdout of `git rev-parse <ref>` (`none`
models a failing command), and the exit status of
`git merge-base --is-ancestor <a> <b>`. -/
structure GitEnv where
  remotes : List (String × String)
  lsRemoteTagLines : List String
  remoteShowLines : List String
  revParse : String → Option String
  mergeBaseExit : String → String → Int

/-- The function `get_sha_for_branch` of `git_utils.py`: the stripped stdout of
`git rev-parse <branch>`. -/
def get_sha_for_branch (env : GitEnv) (branch : String) : Except GitError String :=
  match env.revParse branch with
  | none => .error .calledProcessError
  | some out => .ok (pyStrip out)

/-- The function `is_ancestor` of `git_utils.py`: returns false when the resolved sha of
`ancestor` equals the (unresolved) `child` string; otherwise classifies the
exit status of `git merge-base --is-ancestor` (0 yes, 1 no, other raised). -/
def is_ancestor (env : GitEnv) (ancestor child : String) : Except GitError Bool :=
  match get_sha_for_branch env ancestor with
  | .error e => .error e
  | .ok sha =>
    if sha = child then .ok false
    else if env.mergeBaseExit ancestor child = 0 then .ok true
    else if env.mergeBaseExit ancestor child = 1 then .ok false
    else .error .calledProcessError

/-- The function `detect_default_branch` of `git_utils.py`: the trailing whitespace-token
of the first `git remote show` line containing `"HEAD branch"`. -/
def detect_default_branch (env : GitEnv) : Except GitError String :=
  match env.remoteShowLines.find? (fun line => strContains line "HEAD branch") with
  | some line => .ok ((pySplitWs line).getLastD "")
  | none => .error .remoteDiscoveryError

/-! ## The updater (`git_updater.py`) -/

/-- The constant `GitUpdater.UPSTREAM_REMOTE_NAME`. -/
def UPSTREAM_REMOTE_NAME : String := "update_origin"

/-- The function `GitUpdater._is_likely_android_remote`. -/
def _is_likely_android_remote (url : String) : Bool :=
  if !strContains url "://" then false
  else if strContains url "/platform/external/" then true
  else if strContains url "/toolchain/" then true
  else false

/-- The remote-configuration mutations and fetches `setup_remote` performs,
in order. -/
inductive RemoteAction
  | add (name url : String)
  | remove (name : String)
  | fetchTags (name : String)
  deriving DecidableEq

/-- The scanning loop of `setup_remote`: the url currently configured for the
fixed upstream remote, and the name of the last remote whose url looks like
the android remote. -/
def scanRemotes (remotes : List (String × String)) : Option String × Option String :=
  remotes.foldl
    (fun acc kv =>
      (if kv.1 = UPSTREAM_REMOTE_NAME then some kv.2 else acc.1,
       if _is_likely_android_remote kv.2 then some kv.1 else acc.2))
    (none, none)

/-- Command `git remote remove`: drops the named remote from the configuration. -/
def removeRemote (remotes : List (String × String)) (name : String) :
    List (String × String) :=
  remotes.filter (fun kv => kv.1 ≠ name)

/-- The function `GitUpdater.setup_remote`, as a function of the configured upstream url
(`self._old_identifier.value`) and the current remote configuration. Returns
the configuration it leaves behind together with the actions it performed;
the error models the `RuntimeError` raised when no android remote can be
determined (raised before any mutation). The final `git fetch --tags` does
not change the remote configuration. -/
def setup_remote (oldUrl : String) (remotes : List (String × String)) :
    Except GitError (List (String × String) × List RemoteAction) :=
  match (scanRemotes remotes).2 with
  | none => .error .remoteDiscoveryError
  | some _ =>
    match (scanRemotes remotes).1 with
    | some currentRemoteUrl =>
      if currentRemoteUrl ≠ oldUrl then
        .ok (removeRemote remotes UPSTREAM_REMOTE_NAME ++ [(UPSTREAM_REMOTE_NAME, oldUrl)],
          [RemoteAction.remove UPSTREAM_REMOTE_NAME,
           RemoteAction.add UPSTREAM_REMOTE_NAME oldUrl,
           RemoteAction.fetchTags UPSTREAM_REMOTE_NAME])
      else .ok (remotes, [RemoteAction.fetchTags UPSTREAM_REMOTE_NAME])
    | none =>
      .ok (remotes ++ [(UPSTREAM_REMOTE_NAME, oldUrl)],
        [RemoteAction.add UPSTREAM_REMOTE_NAME oldUrl,
         RemoteAction.fetchTags UPSTREAM_REMOTE_NAME])

/-- The characters following the last occurrence of `needle` in the list, or
`none` when `needle` does not occur. -/
def afterSeq (needle : List Char) : List Char → Option (List Char)
  | [] => if needle = [] then some [] else none
  | c :: cs =>
    match afterSeq needle cs with
    | some t => some t
    | none =>
      if listBeginsWith needle (c :: cs) then some ((c :: cs).drop needle.length)
      else none

/-- Modelled from the spec: `parse_remote_tag` is absent from the sources
(only its callers in `git_updater.py` and `github_archive_updater.py` are
present). Per the spec's TagCatalog contract ("list remote tags … list of tag
names"), each `git ls-remote --tags` output line is reduced to the tag name
following `refs/tags/`. -/
def parse_remote_tag (line : String) : String :=
  match afterSeq "refs/tags/".data line.data with
  | some t => ⟨t⟩
  | none => line

/-- The glob patterns of `UNWANTED_TAGS` in `git_utils.py`; under `fnmatch`,
`*alpha*` and friends test substring containment. -/
def isUnstableTag (t : String) : Bool :=
  strContains t "alpha" || strContains t "Alpha" || strContains t "beta" ||
    strContains t "Beta" || strContains t "rc" || strContains t "RC" ||
    strContains t "test"

/-- Modelled from the spec: `get_latest_stable_release_tag` is absent from the
sources (only its callers and its tests are present). Per the spec's
TagCatalog and VersionComparator contracts, tags matching the unstable
patterns are dropped, only candidates shape-compatible with the current
version (equal non-digit prefix and suffix and equal segment count) are
considered, and among those the greatest by numeric segments is returned;
when no candidate remains the result is empty. -/
def get_latest_stable_release_tag (currentVersion : String) (tags : List String) :
    Option String :=
  match _parse_version currentVersion with
  | none => none
  | some old =>
    let candidates := (tags.filter (fun t => !isUnstableTag t)).filter
      (fun t =>
        match _parse_version t with
        | some p =>
          p.pre == old.pre && p.suf == old.suf && p.segs.length == old.segs.length
        | none => false)
    pymaxBy (_match_and_get_version old) candidates

/-- The function `GitUpdater.latest_tag_of_upstream`. -/
def latest_tag_of_upstream (env : GitEnv) (oldVersion : String) : Option String :=
  get_latest_stable_release_tag oldVersion (env.lsRemoteTagLines.map parse_remote_tag)

/-- The function `GitUpdater.current_head_of_upstream_default_branch`. -/
def current_head_of_upstream_default_branch (env : GitEnv) : Except GitError String :=
  match detect_default_branch env with
  | .error e => .error e
  | .ok branch => get_sha_for_branch env (UPSTREAM_REMOTE_NAME ++ "/" ++ branch)

/-- What a completed `GitUpdater.check` leaves in the updater:
`self._new_identifier.version` and `self._alternative_new_ver`. -/
structure CheckResult where
  newVersion : String
  alternativeNewVer : Option String
  deriving DecidableEq

/-- The tail of `GitUpdater.check`: `_alternative_new_ver` is set only when a
candidate exists and `is_ancestor(old, candidate)` returns true; an error of
the ancestry query propagates. -/
def checkAlternative (env : GitEnv) (oldVersion newVersion : String)
    (possibleAlternativeNewVer : Option String) : Except GitError CheckResult :=
  match possibleAlternativeNewVer with
  | none => .ok ⟨newVersion, none⟩
  | some alt =>
    match is_ancestor env oldVersion alt with
    | .error e => .error e
    | .ok true => .ok ⟨newVersion, some alt⟩
    | .ok false => .ok ⟨newVersion, none⟩

/-- The function `GitUpdater.check`, as a function of the observable git world, the
configured upstream url and the current version. When the current version
looks like a commit the next version is the upstream default-branch head and
the latest stable tag is the alternative candidate; otherwise the latest
stable tag is the next version (raising when there is none) and the head is
the alternative candidate. -/
def check (env : GitEnv) (oldUrl oldVersion : String) : Except GitError CheckResult :=
  match setup_remote oldUrl env.remotes with
  | .error e => .error e
  | .ok _ =>
    if is_commit oldVersion then
      match current_head_of_upstream_default_branch env with
      | .error e => .error e
      | .ok head =>
        checkAlternative env oldVersion head (latest_tag_of_upstream env oldVersion)
    else
      match latest_tag_of_upstream env oldVersion with
      | none => .error .noTagsUpstream
      | some tag =>
        match current_head_of_upstream_default_branch env with
        | .error e => .error e
        | .ok head => checkAlternative env oldVersion tag (some head)

/-! ## Concrete worlds used to evaluate the engine at specific inputs -/

/-- A forty-character lowercase hex string (a plausible commit sha). -/
def shaOfA : String := ⟨List.replicate 40 'a'⟩

/-- Another forty-character lowercase hex string. -/
def shaOfD : String := ⟨List.replicate 40 'd'⟩

/-- A forty-character hex string consisting of digits only; it parses as a
version (one numeric segment, empty prefix and suffix). -/
def shaOfFive : String := ⟨List.replicate 40 '5'⟩

/-- A url that `_is_likely_android_remote` accepts. -/
def androidUrl : String := "https://android.googlesource.com/platform/external/foo"

/-- A repository in which the ref `v1.0` resolves to commit `d…d` and — as
git documents for `merge-base --is-ancestor` — every commit is an ancestor of
itself, so the query with the same ref on both sides exits 0. -/
def tagSelfEnv : GitEnv :=
  ⟨[], [], [],
   fun r => if r = "v1.0" then some shaOfD else none,
   fun a b => if a = "v1.0" && b = "v1.0" then 0 else 128⟩

/-- A tag-tracking repository whose upstream head commit is `5…5` and whose
only tag is literally named `5…5` (git allows tag names that look like
hashes); the current version `7` is a ref resolving to commit `a…a`, which is
an ancestor of the head. -/
def tagNamedHeadEnv : GitEnv :=
  ⟨[("aosp", androidUrl)],
   [shaOfA ++ "\trefs/tags/" ++ shaOfFive],
   ["  HEAD branch: main"],
   fun r => if r = "7" then some shaOfA else
     if r = "update_origin/main" then some shaOfFive else none,
   fun a b => if a = "7" && b = shaOfFive then 0 else 128⟩

/-- A repository with no tags at all. -/
def noTagsEnv : GitEnv :=
  ⟨[("aosp", androidUrl)], [], ["  HEAD branch: main"], fun _ => none, fun _ _ => 128⟩

/-- A tag-tracking repository where the latest compatible tag is `v2.0` and
the upstream head `d…d` is strictly newer than the current tag `v1.0`. -/
def altHeadEnv : GitEnv :=
  ⟨[("aosp", androidUrl)],
   [shaOfA ++ "\trefs/tags/v2.0"],
   ["  HEAD branch: main"],
   fun r => if r = "v1.0" then some shaOfA else
     if r = "update_origin/main" then some shaOfD else none,
   fun a b => if a = "v1.0" && b = shaOfD then 0 else 128⟩

/-! ## Order lemmas for the comparison keys -/

theorem natListLt_irrefl : ∀ l : List Nat, natListLt l l = false
  | [] => rfl
  | a :: as => by simp [natListLt, natListLt_irrefl as]

theorem natListLt_trans : ∀ a b c : List Nat,
    natListLt a b = true → natListLt b c = true → natListLt a c = true := by
  intro a
  induction a with
  | nil =>
    intro b c hab hbc
    cases b with
    | nil => simp [natListLt] at hab
    | cons y ys =>
      cases c with
      | nil => simp [natListLt] at hbc
      | cons z zs => simp [natListLt]
  | cons x xs ih =>
    intro b c hab hbc
    cases b with
    | nil => simp [natListLt] at hab
    | cons y ys =>
      cases c with
      | nil => simp [natListLt] at hbc
      | cons z zs =>
        simp only [natListLt, Bool.or_eq_true, Bool.and_eq_true, beq_iff_eq,
          decide_eq_true_eq] at hab hbc ⊢
        rcases hab with h1 | ⟨h1, h2⟩ <;> rcases hbc with g1 | ⟨g1, g2⟩
        · exact Or.inl (Nat.lt_trans h1 g1)
        · exact Or.inl (g1 ▸ h1)
        · exact Or.inl (h1 ▸ g1)
        · exact Or.inr ⟨h1.trans g1, ih ys zs h2 g2⟩

theorem natListLt_conn : ∀ a b : List Nat,
    natListLt a b = false → natListLt b a = false → a = b := by
  intro a
  induction a with
  | nil =>
    intro b h1 _
    cases b with
    | nil => rfl
    | cons y ys => simp [natListLt] at h1
  | cons x xs ih =>
    intro b h1 h2
    cases b with
    | nil => simp [natListLt] at h2
    | cons y ys =>
      rcases Nat.lt_trichotomy x y with hlt | heq | hgt
      · simp [natListLt, hlt] at h1
      · subst heq
        simp only [natListLt, Nat.lt_irrefl, decide_False, Bool.false_or, beq_self_eq_true,
          Bool.true_and] at h1 h2
        rw [ih ys h1 h2]
      · simp [natListLt, hgt] at h2

theorem natListLt_asymm (a b : List Nat) (h : natListLt a b = true) :
    natListLt b a = false := by
  cases hba : natListLt b a with
  | false => rfl
  | true =>
    have := natListLt_trans a b a h hba
    rw [natListLt_irrefl] at this
    cases this

theorem natListLt_false_trans (a b c : List Nat) (h1 : natListLt a b = false)
    (h2 : natListLt b c = false) : natListLt a c = false := by
  cases hac : natListLt a c with
  | false => rfl
  | true =>
    cases hcb : natListLt c b with
    | true =>
      have := natListLt_trans a c b hac hcb
      rw [h1] at this
      cases this
    | false =>
      have hbc : b = c := natListLt_conn b c h2 hcb
      subst hbc
      rw [h1] at hac
      cases hac

theorem vkeyLt_irrefl (k : VKey) : vkeyLt k k = false := natListLt_irrefl _

theorem vkeyLt_asymm (a b : VKey) (h : vkeyLt a b = true) : vkeyLt b a = false :=
  natListLt_asymm _ _ h

theorem vkeyLt_false_trans (a b c : VKey) (h1 : vkeyLt a b = false)
    (h2 : vkeyLt b c = false) : vkeyLt a c = false :=
  natListLt_false_trans _ _ _ h1 h2

/-! ## What Python `max` returns -/

theorem pymax_foldl_mem {α : Type} (key : α → VKey) (xs : List α) : ∀ x : α,
    xs.foldl (fun best y => if vkeyLt (key best) (key y) then y else best) x = x ∨
    xs.foldl (fun best y => if vkeyLt (key best) (key y) then y else best) x ∈ xs := by
  induction xs with
  | nil => intro x; exact Or.inl rfl
  | cons z tl ih =>
    intro x
    simp only [List.foldl_cons]
    rcases ih (if vkeyLt (key x) (key z) then z else x) with h | h
    · rw [h]
      split
      · exact Or.inr (List.mem_cons_self z tl)
      · exact Or.inl rfl
    · exact Or.inr (List.mem_cons_of_mem z h)

theorem pymax_foldl_max {α : Type} (key : α → VKey) (xs : List α) : ∀ x y : α,
    (y = x ∨ y ∈ xs) →
    vkeyLt
      (key (xs.foldl (fun best y => if vkeyLt (key best) (key y) then y else best) x))
      (key y) = false := by
  induction xs with
  | nil =>
    intro x y hy
    rcases hy with rfl | h
    · exact vkeyLt_irrefl _
    · cases h
  | cons z tl ih =>
    intro x y hy
    simp only [List.foldl_cons]
    have hx' : vkeyLt (key (if vkeyLt (key x) (key z) then z else x)) (key x) = false ∧
        vkeyLt (key (if vkeyLt (key x) (key z) then z else x)) (key z) = false := by
      by_cases hc : vkeyLt (key x) (key z) = true
      · rw [if_pos hc]
        exact ⟨vkeyLt_asymm _ _ hc, vkeyLt_irrefl _⟩
      · rw [if_neg hc]
        refine ⟨vkeyLt_irrefl _, ?_⟩
        cases hcc : vkeyLt (key x) (key z) with
        | false => rfl
        | true => exact absurd hcc hc
    rcases hy with rfl | hmem
    · exact vkeyLt_false_trans _ _ _ (ih _ _ (Or.inl rfl)) hx'.1
    · rcases List.mem_cons.mp hmem with rfl | htl
      · exact vkeyLt_false_trans _ _ _ (ih _ _ (Or.inl rfl)) hx'.2
      · exact ih _ _ (Or.inr htl)

theorem pymaxBy_mem {α : Type} (key : α → VKey) (l : List α) (m : α)
    (h : pymaxBy key l = some m) : m ∈ l := by
  cases l with
  | nil => cases h
  | cons x xs =>
    have hm := Option.some.inj h
    rcases pymax_foldl_mem key xs x with he | he
    · rw [← hm, he]; exact List.mem_cons_self x xs
    · rw [← hm]; exact List.mem_cons_of_mem x he

theorem pymaxBy_max {α : Type} (key : α → VKey) (l : List α) (m : α)
    (h : pymaxBy key l = some m) : ∀ y ∈ l, vkeyLt (key m) (key y) = false := by
  cases l with
  | nil => cases h
  | cons x xs =>
    intro y hy
    have hm := Option.some.inj h
    rw [← hm]
    exact pymax_foldl_max key xs x y (List.mem_cons.mp hy)

/-! ## The claims -/

/-- C1: the claim states that any string returned by `get_latest_version`
other than the current version itself has the current version's parsed
prefix and suffix. The code violates it: `_match_and_get_version` only ranks
shape mismatches lower, it never filters them, so with current version `1.0`
and sole candidate `foo2.0bar` — which parses with prefix `foo` and suffix
`bar`, neither equal to the current version's empty prefix and suffix — the
mismatched candidate is returned, contradicting the function's own docstring
("The new version must have the same prefix and suffix with old version"). -/
theorem get_latest_version_shape_mismatch_bug :
    get_latest_version "1.0" ["foo2.0bar"] = .ok "foo2.0bar" ∧
    _parse_version "1.0" = some ⟨[1, 0], "", ""⟩ ∧
    _parse_version "foo2.0bar" = some ⟨[2, 0], "foo", "bar"⟩ := by
  refine ⟨?_, ?_, ?_⟩ <;> decide

/-- C2: the claim states that `is_ancestor` returns false whenever the two
refs resolve to the identical commit. Evaluating it on the same ref `v1.0`
twice (trivially the identical commit) yields `true`: the guard compares the
*resolved* sha of the ancestor with the *unresolved* child string
(`d…d ≠ "v1.0"`), after which `git merge-base --is-ancestor` reports the
commit as its own ancestor (exit 0), contradicting the comment in the
source ("we don't want to return True if ancestor points to the same commit
as child"). -/
theorem is_ancestor_identical_commit_bug :
    is_ancestor tagSelfEnv "v1.0" "v1.0" = .ok true ∧
    get_sha_for_branch tagSelfEnv "v1.0" = .ok shaOfD ∧
    tagSelfEnv.mergeBaseExit "v1.0" "v1.0" = 0 := by
  refine ⟨?_, ?_, ?_⟩ <;> decide

/-- C3: when the current version is not a 40-hex commit hash (tag tracking)
and no tag compatible with it is found upstream, `check` raises an error for
the project instead of reporting it as up to date. -/
theorem check_no_tag_raises (env : GitEnv) (url oldVersion : String)
    (h1 : is_commit oldVersion = false)
    (h2 : latest_tag_of_upstream env oldVersion = none) :
    ∃ e, check env url oldVersion = .error e := by
  unfold check
  cases hs : setup_remote url env.remotes with
  | error e => exact ⟨e, rfl⟩
  | ok p =>
    rw [h1, h2]
    exact ⟨.noTagsUpstream, by simp⟩

theorem check_no_tag_raises_witness :
    ∃ e, check noTagsEnv "https://up/x" "v1.0" = .error e :=
  check_no_tag_raises noTagsEnv "https://up/x" "v1.0" (by decide) (by decide)

theorem checkAlternative_ok_alt (env : GitEnv) (oldVersion newVersion : String)
    (poss : Option String) (r : CheckResult) (a : String)
    (h : checkAlternative env oldVersion newVersion poss = .ok r)
    (ha : r.alternativeNewVer = some a) :
    is_ancestor env oldVersion a = .ok true := by
  cases poss with
  | none =>
    simp only [checkAlternative] at h
    rw [← Except.ok.inj h] at ha
    cases ha
  | some alt =>
    simp only [checkAlternative] at h
    cases hia : is_ancestor env oldVersion alt with
    | error e => rw [hia] at h; cases h
    | ok b =>
      rw [hia] at h
      cases b with
      | false =>
        rw [← Except.ok.inj h] at ha
        cases ha
      | true =>
        rw [← Except.ok.inj h] at ha
        rw [← Option.some.inj ha]
        exact hia

/-- C4 (amended): after a completed `check` in which the alternative version
is set, the alternative passed the `is_ancestor` check against the current
version. The further conjunct of the claim — that the alternative is never
equal to the chosen next version — is not enforced by the code; see the
counterexample. -/
theorem check_alternative_passed_ancestry (env : GitEnv) (url oldVersion : String)
    (r : CheckResult) (a : String)
    (h : check env url oldVersion = .ok r)
    (ha : r.alternativeNewVer = some a) :
    is_ancestor env oldVersion a = .ok true := by
  unfold check at h
  cases hs : setup_remote url env.remotes with
  | error e => rw [hs] at h; cases h
  | ok p =>
    rw [hs] at h
    by_cases hic : is_commit oldVersion = true
    · rw [if_pos hic] at h
      cases hh : current_head_of_upstream_default_branch env with
      | error e => rw [hh] at h; cases h
      | ok head =>
        rw [hh] at h
        exact checkAlternative_ok_alt env oldVersion head _ r a h ha
    · rw [if_neg hic] at h
      cases hl : latest_tag_of_upstream env oldVersion with
      | none => rw [hl] at h; cases h
      | some tag =>
        rw [hl] at h
        cases hh : current_head_of_upstream_default_branch env with
        | error e => rw [hh] at h; cases h
        | ok head =>
          rw [hh] at h
          exact checkAlternative_ok_alt env oldVersion tag _ r a h ha

theorem check_alternative_passed_ancestry_witness :
    is_ancestor altHeadEnv "v1.0" shaOfD = .ok true :=
  check_alternative_passed_ancestry altHeadEnv "https://up/x" "v1.0"
    ⟨"v2.0", some shaOfD⟩ shaOfD (by decide) rfl

/-- C4 (counterexample): the claim also demands that the alternative differ
from the chosen next version, but nothing in `check` compares the two. In
`tagNamedHeadEnv` the latest compatible stable tag is literally named `5…5`
while the upstream head sha is also `5…5`; the completed check sets both the
next version and the alternative to that same string. -/
theorem check_alternative_equals_next_counterexample :
    check tagNamedHeadEnv "https://up/x" "7" = .ok ⟨shaOfFive, some shaOfFive⟩ := by
  decide

theorem scanRemotes_append_fst (l : List (String × String)) (n u : String) :
    (scanRemotes (l ++ [(n, u)])).1 =
      if n = UPSTREAM_REMOTE_NAME then some u else (scanRemotes l).1 := by
  unfold scanRemotes
  rw [List.foldl_append]
  rfl

theorem setup_remote_noop (url : String) (rs : List (String × String))
    (hcur : (scanRemotes rs).1 = some url) :
    ∀ rs2 acts2, setup_remote url rs = .ok (rs2, acts2) →
      rs2 = rs ∧ acts2 = [RemoteAction.fetchTags UPSTREAM_REMOTE_NAME] := by
  intro rs2 acts2 h
  unfold setup_remote at h
  split at h
  · cases h
  · split at h
    · rename_i c heqc
      split at h
      · rename_i hne
        rw [hcur] at heqc
        exact absurd (Option.some.inj heqc).symm hne
      · have h12 := Except.ok.inj h
        injection h12 with h1 h2
        exact ⟨h1.symm, h2.symm⟩
    · rename_i heqn
      rw [hcur] at heqn
      cases heqn

/-- C5: `setup_remote` establishes and preserves the remote-configuration
invariant. After any successful call the fixed upstream remote is configured
with the given url; if it was already configured with that url nothing but
the fetch happens and the configuration is unchanged (so a repeated call is
a no-op); if it was configured with a different url it is removed and
re-added (never repointed in place); if it was absent it is added. -/
theorem setup_remote_invariant (url : String) (rs rs' : List (String × String))
    (acts : List RemoteAction)
    (h : setup_remote url rs = .ok (rs', acts)) :
    (scanRemotes rs').1 = some url ∧
    ((scanRemotes rs).1 = some url →
      rs' = rs ∧ acts = [RemoteAction.fetchTags UPSTREAM_REMOTE_NAME]) ∧
    (∀ v, (scanRemotes rs).1 = some v → v ≠ url →
      rs' = removeRemote rs UPSTREAM_REMOTE_NAME ++ [(UPSTREAM_REMOTE_NAME, url)] ∧
      acts = [RemoteAction.remove UPSTREAM_REMOTE_NAME,
        RemoteAction.add UPSTREAM_REMOTE_NAME url,
        RemoteAction.fetchTags UPSTREAM_REMOTE_NAME]) ∧
    ((scanRemotes rs).1 = none →
      rs' = rs ++ [(UPSTREAM_REMOTE_NAME, url)] ∧
      acts = [RemoteAction.add UPSTREAM_REMOTE_NAME url,
        RemoteAction.fetchTags UPSTREAM_REMOTE_NAME]) ∧
    (∀ rs2 acts2, setup_remote url rs' = .ok (rs2, acts2) →
      rs2 = rs' ∧ acts2 = [RemoteAction.fetchTags UPSTREAM_REMOTE_NAME]) := by
  have hmain : (scanRemotes rs').1 = some url ∧
      ((scanRemotes rs).1 = some url →
        rs' = rs ∧ acts = [RemoteAction.fetchTags UPSTREAM_REMOTE_NAME]) ∧
      (∀ v, (scanRemotes rs).1 = some v → v ≠ url →
        rs' = removeRemote rs UPSTREAM_REMOTE_NAME ++ [(UPSTREAM_REMOTE_NAME, url)] ∧
        acts = [RemoteAction.remove UPSTREAM_REMOTE_NAME,
          RemoteAction.add UPSTREAM_REMOTE_NAME url,
          RemoteAction.fetchTags UPSTREAM_REMOTE_NAME]) ∧
      ((scanRemotes rs).1 = none →
        rs' = rs ++ [(UPSTREAM_REMOTE_NAME, url)] ∧
        acts = [RemoteAction.add UPSTREAM_REMOTE_NAME url,
          RemoteAction.fetchTags UPSTREAM_REMOTE_NAME]) := by
    unfold setup_remote at h
    split at h
    · cases h
    · split at h
      · rename_i c heqc
        split at h
        · rename_i hne
          have h12 := Except.ok.inj h
          injection h12 with h1 h2
          subst h1
          subst h2
          refine ⟨?_, ?_, ?_, ?_⟩
          · rw [scanRemotes_append_fst, if_pos rfl]
          · intro hw
            rw [heqc] at hw
            exact absurd (Option.some.inj hw) hne
          · intro w _ _
            exact ⟨rfl, rfl⟩
          · intro hw; rw [heqc] at hw; cases hw
        · rename_i hne
          have hcu : c = url := not_not.mp hne
          subst hcu
          have h12 := Except.ok.inj h
          injection h12 with h1 h2
          subst h1
          subst h2
          refine ⟨?_, ?_, ?_, ?_⟩
          · exact heqc
          · intro _; exact ⟨rfl, rfl⟩
          · intro w hw hne2
            rw [heqc] at hw
            exact absurd (Option.some.inj hw) (fun hh => hne2 hh.symm)
          · intro hw; rw [heqc] at hw; cases hw
      · rename_i heqn
        have h12 := Except.ok.inj h
        injection h12 with h1 h2
        subst h1
        subst h2
        refine ⟨?_, ?_, ?_, ?_⟩
        · rw [scanRemotes_append_fst, if_pos rfl]
        · intro hw; rw [heqn] at hw; cases hw
        · intro w hw _; rw [heqn] at hw; cases hw
        · intro _; exact ⟨rfl, rfl⟩
  exact ⟨hmain.1, hmain.2.1, hmain.2.2.1, hmain.2.2.2,
    setup_remote_noop url rs' hmain.1⟩

theorem setup_remote_invariant_witness :
    (scanRemotes [("aosp", androidUrl), ("update_origin", "https://up/x")]).1 =
      some "https://up/x" :=
  (setup_remote_invariant "https://up/x"
    [("aosp", androidUrl), ("update_origin", "https://up/OLD")]
    [("aosp", androidUrl), ("update_origin", "https://up/x")]
    [RemoteAction.remove "update_origin", RemoteAction.add "update_origin" "https://up/x",
      RemoteAction.fetchTags "update_origin"]
    (by decide)).1

theorem get_latest_version_eq_of_pymax (current : String) (old : ParsedVersion)
    (l : List String) (m : String) (hc : _parse_version current = some old)
    (hp : pymaxBy (_match_and_get_version old) l = some m) (hm : m ≠ "") :
    get_latest_version current l = .ok m := by
  simp only [get_latest_version, hc, hp]
  rw [if_neg hm]

/-- C6: version segments are compared numerically. Among candidates that all
parse with the current version's prefix, suffix and segment count,
`get_latest_version` returns a candidate whose integer segment tuple is not
smaller than any other candidate's; in particular
`get_latest_version "1.10" ["1.10", "1.2"]` is `"1.10"` even though `"1.2"`
is the lexicographically greater string. -/
theorem get_latest_version_numeric_order :
    (∀ (current : String) (old : ParsedVersion) (l : List String),
      _parse_version current = some old → l ≠ [] →
      (∀ v ∈ l, ∃ p, _parse_version v = some p ∧ p.pre = old.pre ∧ p.suf = old.suf ∧
        p.segs.length = old.segs.length) →
      ∃ m pm, get_latest_version current l = .ok m ∧ m ∈ l ∧
        _parse_version m = some pm ∧
        ∀ v ∈ l, ∀ pv, _parse_version v = some pv →
          natListLt pm.segs pv.segs = false) ∧
    get_latest_version "1.10" ["1.10", "1.2"] = .ok "1.10" := by
  constructor
  · intro current old l hc hne hcomp
    rcases l with _ | ⟨x, xs⟩
    · exact absurd rfl hne
    · obtain ⟨m, hm⟩ : ∃ m, pymaxBy (_match_and_get_version old) (x :: xs) = some m :=
        ⟨_, rfl⟩
      have hmem := pymaxBy_mem _ _ _ hm
      obtain ⟨pm, hpm, hpre, hsuf, hlen⟩ := hcomp m hmem
      have hmne : m ≠ "" := by
        intro he
        rw [he] at hpm
        exact Option.noConfusion hpm
      have hkeym : _match_and_get_version old m = some (true, true, pm.segs) := by
        simp [_match_and_get_version, hpm, hpre, hsuf, hlen]
      refine ⟨m, pm, get_latest_version_eq_of_pymax current old _ m hc hm hmne,
        hmem, hpm, ?_⟩
      intro v hv pv hpv
      obtain ⟨pv', hpv', hpre', hsuf', hlen'⟩ := hcomp v hv
      rw [hpv] at hpv'
      cases Option.some.inj hpv'
      have hkeyv : _match_and_get_version old v = some (true, true, pv.segs) := by
        simp [_match_and_get_version, hpv, hpre', hsuf', hlen']
      have hlt := pymaxBy_max _ _ _ hm v hv
      rw [hkeym, hkeyv] at hlt
      simpa [vkeyLt, vkeyEnc, natListLt] using hlt
  · decide

theorem get_latest_version_numeric_order_witness :
    ∃ m pm, get_latest_version "1.10" ["1.10", "1.2"] = .ok m ∧ m ∈ ["1.10", "1.2"] ∧
      _parse_version m = some pm ∧
      ∀ v ∈ ["1.10", "1.2"], ∀ pv, _parse_version v = some pv →
        natListLt pm.segs pv.segs = false :=
  get_latest_version_numeric_order.1 "1.10" ⟨[1, 10], "", ""⟩ ["1.10", "1.2"]
    (by decide) (by decide)
    (by
      intro v hv
      simp only [List.mem_cons, List.not_mem_nil, or_false] at hv
      rcases hv with rfl | rfl
      · exact ⟨⟨[1, 10], "", ""⟩, by decide, rfl, rfl, rfl⟩
      · exact ⟨⟨[1, 2], "", ""⟩, by decide, rfl, rfl, rfl⟩)

/-- C7 (amended): `is_commit` returns true exactly on strings of forty
lowercase hex digits, optionally followed by a single trailing newline (the
newline is accepted because Python's `$` matches just before a newline that
ends the string); every other string — including any other extra leading or
trailing characters — yields false. -/
theorem is_commit_iff (s : String) :
    is_commit s = true ↔
      ((s.data.length = 40 ∧ ∀ c ∈ s.data, isLowerHexDigit c = true) ∨
        (∃ t : List Char, s.data = t ++ ['\n'] ∧ t.length = 40 ∧
          ∀ c ∈ t, isLowerHexDigit c = true)) := by
  simp only [is_commit, Bool.and_eq_true, Bool.or_eq_true, decide_eq_true_eq,
    List.all_eq_true, beq_iff_eq]
  constructor
  · rintro ⟨⟨hlen, hall⟩, hd | hd⟩
    · left
      have hle : s.data.length ≤ 40 := List.drop_eq_nil_iff.mp hd
      have hlen40 : s.data.length = 40 := Nat.le_antisymm hle hlen
      refine ⟨hlen40, fun c hc => hall c ?_⟩
      rw [List.take_of_length_le (Nat.le_of_eq hlen40)]
      exact hc
    · right
      refine ⟨s.data.take 40, ?_, ?_, fun c hc => hall c hc⟩
      · conv_lhs => rw [← List.take_append_drop 40 s.data]
        rw [hd]
      · rw [List.length_take]
        omega
  · rintro (⟨hlen, hall⟩ | ⟨t, ht, htlen, hthex⟩)
    · refine ⟨⟨by omega, fun c hc => hall c ?_⟩, Or.inl ?_⟩
      · rw [List.take_of_length_le (by omega)] at hc
        exact hc
      · exact List.drop_eq_nil_iff.mpr (by omega)
    · refine ⟨⟨?_, fun c hc => ?_⟩, Or.inr ?_⟩
      · rw [ht, List.length_append, htlen]
        simp
      · rw [ht, ← htlen, List.take_left] at hc
        exact hthex c hc
      · rw [ht, ← htlen, List.drop_left]

theorem is_commit_iff_witness : is_commit ⟨List.replicate 40 'b'⟩ = true :=
  (is_commit_iff ⟨List.replicate 40 'b'⟩).mpr (Or.inl ⟨by decide, by decide⟩)

/-- C7 (counterexample): the claim as stated demands false for every string
that is not exactly forty lowercase hex characters, but forty hex digits
followed by a trailing newline — a forty-one character string — is accepted:
Python's `$` matches just before a newline that ends the string. -/
theorem is_commit_trailing_newline_counterexample :
    is_commit ⟨List.replicate 40 'a' ++ ['\n']⟩ = true ∧
    (String.mk (List.replicate 40 'a' ++ ['\n'])).data.length = 41 := by
  refine ⟨?_, ?_⟩ <;> decide

/-- C8: `get_most_recent_tag` returns an empty result instead of raising
exactly when the `git describe` invocation failed with a "No names found" or
"No tags can describe" message; any other failure is re-raised, and on
success the stripped stdout is returned as the tag. -/
theorem get_most_recent_tag_spec (res : Except CalledProcessError String) :
    (get_most_recent_tag res = .ok none ↔
      ∃ ex, res = .error ex ∧
        (strContains ex.stderr "fatal: No names found" = true ∨
          strContains ex.stderr "fatal: No tags can describe" = true)) ∧
    (∀ ex, res = .error ex →
      strContains ex.stderr "fatal: No names found" = false →
      strContains ex.stderr "fatal: No tags can describe" = false →
      get_most_recent_tag res = .error ex) ∧
    (∀ out, res = .ok out → get_most_recent_tag res = .ok (some (pyStrip out))) := by
  cases res with
  | ok out =>
    refine ⟨⟨?_, ?_⟩, ?_, ?_⟩
    · intro h
      simp [get_most_recent_tag] at h
    · rintro ⟨ex, hex, _⟩
      cases hex
    · intro ex hex
      cases hex
    · intro o ho
      rw [← Except.ok.inj ho]
      rfl
  | error ex =>
    by_cases h1 : strContains ex.stderr "fatal: No names found" = true
    · refine ⟨⟨?_, ?_⟩, ?_, ?_⟩
      · intro _
        exact ⟨ex, rfl, Or.inl h1⟩
      · intro _
        simp [get_most_recent_tag, h1]
      · intro ex' hex' hf1 _
        obtain rfl : ex = ex' := Except.error.inj hex'
        rw [h1] at hf1
        cases hf1
      · intro o ho
        cases ho
    · have h1f : strContains ex.stderr "fatal: No names found" = false := by
        cases hx : strContains ex.stderr "fatal: No names found" with
        | false => rfl
        | true => exact absurd hx h1
      by_cases h2 : strContains ex.stderr "fatal: No tags can describe" = true
      · refine ⟨⟨?_, ?_⟩, ?_, ?_⟩
        · intro _
          exact ⟨ex, rfl, Or.inr h2⟩
        · intro _
          simp [get_most_recent_tag, h1f, h2]
        · intro ex' hex' _ hf2
          obtain rfl : ex = ex' := Except.error.inj hex'
          rw [h2] at hf2
          cases hf2
        · intro o ho
          cases ho
      · have h2f : strContains ex.stderr "fatal: No tags can describe" = false := by
          cases hx : strContains ex.stderr "fatal: No tags can describe" with
          | false => rfl
          | true => exact absurd hx h2
        refine ⟨⟨?_, ?_⟩, ?_, ?_⟩
        · intro h
          simp [get_most_recent_tag, h1f, h2f] at h
        · rintro ⟨ex', hex', hor⟩
          obtain rfl : ex = ex' := Except.error.inj hex'
          rcases hor with hh | hh
          · exact absurd hh h1
          · exact absurd hh h2
        · intro ex' hex' _ _
          obtain rfl : ex = ex' := Except.error.inj hex'
          simp [get_most_recent_tag, h1f, h2f]
        · intro o ho
          cases ho

theorem get_most_recent_tag_spec_witness :
    get_most_recent_tag (.error ⟨128, "fatal: No names found, cannot describe anything.\n"⟩) =
      .ok none :=
  (get_most_recent_tag_spec
    (.error ⟨128, "fatal: No names found, cannot describe anything.\n"⟩)).1.mpr
    ⟨⟨128, "fatal: No names found, cannot describe anything.\n"⟩, rfl, Or.inl (by decide)⟩

/-- C9: `merge` runs the merge with `--no-commit` and never spawns any other
git command than the merge itself and, on failure, the unmerged-file query:
a failing merge with a non-empty unmerged list returns normally (the
conflict is left for a human), a failing merge with an empty unmerged list
re-raises the original error, and a clean merge returns normally; no commit
is ever issued. -/
theorem merge_conflict_policy (env : MergeEnv) (branch : String) :
    ((merge env branch).2 = [["git", "merge", branch, "--no-commit"]] ∨
      (merge env branch).2 = [["git", "merge", branch, "--no-commit"],
        ["git", "ls-files", "--unmerged"]]) ∧
    (env.mergeResult = .ok () → (merge env branch).1 = .ok ()) ∧
    (∀ err, env.mergeResult = .error err → merge_conflict env = true →
      (merge env branch).1 = .ok ()) ∧
    (∀ err, env.mergeResult = .error err → merge_conflict env = false →
      (merge env branch).1 = .error err) := by
  obtain ⟨mr, uo⟩ := env
  cases mr with
  | ok u =>
    cases u
    refine ⟨Or.inl rfl, ?_, ?_, ?_⟩
    · intro _
      rfl
    · intro err h
      cases h
    · intro err h
      cases h
  | error err0 =>
    by_cases hconf : merge_conflict ⟨.error err0, uo⟩ = true
    · refine ⟨Or.inr ?_, ?_, ?_, ?_⟩
      · simp [merge, hconf]
      · intro h
        cases h
      · intro err h hcf
        simp [merge, hconf]
      · intro err h hcf
        rw [hcf] at hconf
        cases hconf
    · have hconf' : merge_conflict ⟨.error err0, uo⟩ = false := by
        cases hx : merge_conflict ⟨.error err0, uo⟩ with
        | false => rfl
        | true => exact absurd hx hconf
      refine ⟨Or.inr ?_, ?_, ?_, ?_⟩
      · simp [merge, hconf']
      · intro h
        cases h
      · intro err h hcf
        rw [hcf] at hconf'
        cases hconf'
      · intro err h hcf
        obtain rfl : err0 = err := Except.error.inj h
        simp [merge, hconf']

theorem merge_conflict_policy_witness :
    (merge ⟨.error ⟨1, "boom"⟩, "100644 abc 1\tfile"⟩ "b").1 = .ok () :=
  (merge_conflict_policy ⟨.error ⟨1, "boom"⟩, "100644 abc 1\tfile"⟩ "b").2.2.1
    ⟨1, "boom"⟩ rfl (by decide)

/-- C10: on a non-empty candidate list of non-empty strings the
`No matching version.` branch of `get_latest_version` is unreachable — even
when no candidate parses or matches the current version's shape — and, when
the current version itself parses, an element of the list is returned; the
error is raised on an empty candidate list. -/
theorem get_latest_version_total_on_nonempty (current : String) (l : List String)
    (hne : l ≠ []) (hstr : ∀ s ∈ l, s ≠ "") :
    get_latest_version current l ≠ .error .noMatchingVersion ∧
    (∀ old, _parse_version current = some old →
      ∃ r, get_latest_version current l = .ok r ∧ r ∈ l) ∧
    (∀ old, _parse_version current = some old →
      get_latest_version current [] = .error .noMatchingVersion) := by
  rcases l with _ | ⟨x, xs⟩
  · exact absurd rfl hne
  · have hmain : ∀ old, _parse_version current = some old →
        ∃ r, get_latest_version current (x :: xs) = .ok r ∧ r ∈ x :: xs := by
      intro old hc
      obtain ⟨m, hm⟩ : ∃ m, pymaxBy (_match_and_get_version old) (x :: xs) = some m :=
        ⟨_, rfl⟩
      have hmem := pymaxBy_mem _ _ _ hm
      exact ⟨m, get_latest_version_eq_of_pymax current old _ m hc hm (hstr m hmem), hmem⟩
    refine ⟨?_, hmain, ?_⟩
    · cases hpc : _parse_version current with
      | none =>
        have hinv : get_latest_version current (x :: xs) = .error .invalidVersion := by
          simp [get_latest_version, hpc]
        rw [hinv]
        intro hcon
        exact VersionError.noConfusion (Except.error.inj hcon)
      | some old =>
        obtain ⟨r, hr, _⟩ := hmain old hpc
        rw [hr]
        intro hcon
        cases hcon
    · intro old hc
      simp [get_latest_version, hc, pymaxBy]

theorem get_latest_version_total_on_nonempty_witness :
    get_latest_version "1.0" ["foo"] ≠ .error .noMatchingVersion :=
  (get_latest_version_total_on_nonempty "1.0" ["foo"] (by decide) (by decide)).1

end ExternalUpdater
